import Mathlib

/-!
# uStreamer: the blank placeholder loader and the OMX encoder bounds

A shallow embedding of `src/http/blank.c` (the placeholder that is served when
no frame is available) and of the constants and session record declared in
`src/ustreamer/encoders/omx/encoder.h`.

Conventions of the embedding

* A C pointer to a heap object is an `Option`: `none` is `NULL`.
* `size_t` and `unsigned` values are natural numbers.  Every `size_t` of
  `blank.c` counts bytes of one live heap block (`A_REALLOC` aborts the process
  when the block cannot be obtained), so the arithmetic of the loader stays
  below the wrap point of `size_t` and is not reduced modulo a word size.
* The heap block behind `picture.data` is the list of its bytes; its length is
  the real size of the block, recorded next to `picture.allocated`, the size
  the program believes it has.
* libc (`fopen`, `fread`, `feof`, `fseek`) and libjpeg are not part of the
  repository.  They are modelled by an explicit environment: what a path opens,
  what the stream returns, and what libjpeg decodes from the stream.
* The `while (true)` loop is a function of an iteration budget; running out of
  budget is a result of its own (`Exit.running`, `Run.running`), distinct from
  every value the C function can return.
-/

namespace Ustreamer

/-! ## libc and libjpeg: the environment -/

/-- One byte of a file or of a heap block (`unsigned char`). -/
abbrev Byte := UInt8

/-- What sits behind a path: the bytes of the file, whether the stream can be
repositioned, and the offset from which the medium cannot be read (`none`: the
whole file is readable). -/
structure Inode where
  content : List Byte
  seekable : Bool
  badFrom : Option Nat
deriving DecidableEq

/-- An open stdio stream: the file behind it, the position, and the two sticky
indicators of the stream (end-of-file and error). -/
structure FILE where
  content : List Byte
  seekable : Bool
  badFrom : Option Nat
  pos : Nat
  eof : Bool
  error : Bool
deriving DecidableEq

/-- The world outside the program: the file system, and libjpeg seen as a
function of the bytes it is fed.  `jpeg bytes = none` means that libjpeg called
`error_exit` while reading the header; `some (w, h)` is `output_width` and
`output_height` after `jpeg_start_decompress`.  `jpegConsumed` is how far
libjpeg moved the stream while doing so. -/
structure Env where
  files : String → Option Inode
  jpeg : List Byte → Option (Nat × Nat)
  jpegConsumed : List Byte → Nat

/-- Number of bytes of the stream that can be delivered: the file length, cut
at the first unreadable offset. -/
def FILE.limit (fp : FILE) : Nat :=
  match fp.badFrom with
  | none => fp.content.length
  | some b => min b fp.content.length

/-- The bytes a reader gets from the start of the stream. -/
def FILE.readable (fp : FILE) : List Byte :=
  fp.content.take fp.limit

/-- Model of `fopen(path, "rb")`: `none` is the `NULL` of a failed open. -/
def fopen (env : Env) (path : String) : Option FILE :=
  match env.files path with
  | none => none
  | some f => some
      { content := f.content, seekable := f.seekable, badFrom := f.badFrom,
        pos := 0, eof := false, error := false }

/-- Store `bytes` into the block `buf` starting at offset `off`. -/
def store (buf : List Byte) (off : Nat) (bytes : List Byte) : List Byte :=
  buf.take off ++ bytes ++ buf.drop (off + bytes.length)

/-- Model of `fread(buf + off, size, nmemb, fp)`: delivers as many of the
`size * nmemb` requested bytes as the stream still has, stores them at `off`,
and returns the number of items read.  A short read sets the end-of-file
indicator when the file ended, and the error indicator when the medium could
not be read. -/
def fread (buf : List Byte) (off : Nat) (size nmemb : Nat) (fp : FILE) :
    Nat × List Byte × FILE :=
  let got := (fp.readable.drop fp.pos).take (size * nmemb)
  let short := decide (got.length < size * nmemb)
  let bad := decide (fp.limit < fp.content.length)
  (got.length / size, store buf off got,
    { fp with pos := fp.pos + got.length,
              eof := fp.eof || (short && !bad),
              error := fp.error || (short && bad) })

/-- Model of `feof(fp)`. -/
def feof (fp : FILE) : Bool := fp.eof

/-- Model of `fseek(fp, offset, SEEK_SET)`: `-1` on a stream that cannot be
repositioned, else the position is set and the end-of-file indicator cleared. -/
def fseek (fp : FILE) (offset : Nat) : Int × FILE :=
  if fp.seekable then (0, { fp with pos := offset, eof := false }) else (-1, fp)

/-! ## `tools.h`, `blank.h`, `data/blank_jpeg.h` -/

/-- Modelled from the spec: `tools.h` is not among the sources and the spec does not
describe it; `A_CALLOC(dest, n)` is read as its name and its use say, an
asserted `calloc`: a zero-filled block of `n` elements that is never `NULL`. -/
def A_CALLOC (nmemb : Nat) : List Byte := List.replicate nmemb 0

/-- Modelled from the spec: `tools.h` is not among the sources and the spec does not
describe it; `A_REALLOC(dest, n)` is read as an asserted `realloc`: the block
keeps its first bytes and has `n` elements afterwards.  The new bytes are
indeterminate in C and are shown as zero; no theorem below reads them. -/
def A_REALLOC (dest : List Byte) (nmemb : Nat) : List Byte :=
  dest.take nmemb ++ List.replicate (nmemb - dest.length) 0

/-- Modelled from the spec: `tools.h` is not among the sources and the spec does not
describe it; `ARRAY_LEN(a)` is read as the number of elements of the array. -/
def ARRAY_LEN (a : List Byte) : Nat := a.length

/-- Model of `memcpy(dest, src, n)`. -/
def memcpy (dest src : List Byte) (n : Nat) : List Byte :=
  store dest 0 (src.take n)

/-- The compressed picture of `blank.h`: heap block, payload length, capacity. -/
structure picture_t where
  data : List Byte
  used : Nat
  allocated : Nat
deriving DecidableEq

/-- The placeholder of `blank.h`. -/
structure blank_t where
  picture : picture_t
  width : Nat
  height : Nat
deriving DecidableEq

/-- Modelled from the spec: `data/blank_jpeg.h` is not among the sources; it
declares the embedded image `BLANK_JPEG_DATA` and its geometry, which are
parameters of everything below. -/
structure BlankJpeg where
  BLANK_JPEG_DATA : List Byte
  BLANK_JPEG_WIDTH : Nat
  BLANK_JPEG_HEIGHT : Nat
deriving DecidableEq

/-- Result of `A_CALLOC(blank, 1)`: a zeroed `struct blank_t`. -/
def blank_zero : blank_t :=
  { picture := { data := [], used := 0, allocated := 0 }, width := 0, height := 0 }

/-! ## `blank.c` -/

/-- The macro `CHUNK_SIZE` of `_blank_init_external`. -/
def CHUNK_SIZE : Nat := 100 * 1024

/-- Embedding of `_blank_init_internal`. -/
def _blank_init_internal (hdr : BlankJpeg) : Option blank_t :=
  let blank := blank_zero
  let data := A_CALLOC (ARRAY_LEN hdr.BLANK_JPEG_DATA)
  let data := memcpy data hdr.BLANK_JPEG_DATA (ARRAY_LEN hdr.BLANK_JPEG_DATA)
  let blank := { blank with picture := { blank.picture with data := data } }
  let blank := { blank with picture :=
    { blank.picture with used := ARRAY_LEN hdr.BLANK_JPEG_DATA } }
  let blank := { blank with picture :=
    { blank.picture with allocated := ARRAY_LEN hdr.BLANK_JPEG_DATA } }
  let blank := { blank with width := hdr.BLANK_JPEG_WIDTH }
  let blank := { blank with height := hdr.BLANK_JPEG_HEIGHT }
  some blank

/-- Embedding of `_jpeg_read_geometry`: returns the status, the stream as
libjpeg left it, and the two output cells.  `setjmp` yields `0` when it is
called and `-1` when `_jpeg_error_handler` jumps back with `longjmp(jmp, -1)`;
the cells are written only when libjpeg got through the header. -/
def _jpeg_read_geometry (env : Env) (fp : FILE) (width height : Nat) :
    Int × FILE × Nat × Nat :=
  let decoded := env.jpeg fp.readable
  let moved := { fp with pos := env.jpegConsumed fp.readable }
  let jmp : Int := if decoded.isNone then -1 else 0
  if jmp < 0 then (-1, moved, width, height)
  else
    match decoded with
    | some (w, h) => (0, moved, w, h)
    | none => (-1, moved, width, height)

/-- How the read loop was left. -/
inductive Exit where
  | ok
  | error
  | running
deriving DecidableEq

/-- Ghost record of one iteration of the read loop, taken at its `fread` call. -/
structure ReadCall where
  /-- Value of `picture.allocated` when the iteration started. -/
  allocBefore : Nat
  /-- Whether the iteration reassigned `picture.allocated` and reallocated. -/
  grown : Bool
  /-- Value of `picture.used` when `fread` was called. -/
  used : Nat
  /-- Value of `picture.allocated` when `fread` was called. -/
  allocated : Nat
  /-- Real size of the heap block when `fread` was called. -/
  bufLen : Nat
  /-- Return value of `fread`. -/
  readed : Nat
deriving DecidableEq

/-- State in which the read loop was left, with the log of its iterations. -/
structure LoopResult where
  exit : Exit
  picture : picture_t
  fp : FILE
  calls : List ReadCall
deriving DecidableEq

/-- Embedding of the `while (true)` loop of `_blank_init_external`, with an
iteration budget. -/
def readLoop : Nat → FILE → picture_t → LoopResult
  | 0, fp, picture => { exit := .running, picture := picture, fp := fp, calls := [] }
  | fuel + 1, fp, picture =>
    let grown := decide (picture.used + CHUNK_SIZE ≥ picture.allocated)
    let pic1 : picture_t :=
      if grown then
        { picture with
          allocated := picture.used + CHUNK_SIZE * 2
          data := A_REALLOC picture.data (picture.used + CHUNK_SIZE * 2) }
      else picture
    let res := fread pic1.data pic1.used 1 CHUNK_SIZE fp
    let readed := res.1
    let fp1 := res.2.2
    let pic2 : picture_t := { pic1 with data := res.2.1, used := pic1.used + readed }
    let call : ReadCall :=
      { allocBefore := picture.allocated, grown := grown, used := pic1.used,
        allocated := pic1.allocated, bufLen := pic1.data.length, readed := readed }
    if readed < CHUNK_SIZE then
      if feof fp1 then { exit := .ok, picture := pic2, fp := fp1, calls := [call] }
      else { exit := .error, picture := pic2, fp := fp1, calls := [call] }
    else
      let rest := readLoop fuel fp1 pic2
      { rest with calls := call :: rest.calls }

/-- Result of a function that may still be running when the budget ends. -/
inductive Run (α : Type) where
  | returned (value : α)
  | running
deriving DecidableEq

/-- Return value of `_blank_init_external` with the log of its `fread` calls. -/
structure ExtResult where
  ret : Run (Option blank_t)
  calls : List ReadCall
deriving DecidableEq

/-- Embedding of `_blank_init_external`.  The `error` label frees the
placeholder and returns `NULL`; the `ok` label returns it. -/
def _blank_init_external (fuel : Nat) (env : Env) (path : String) : ExtResult :=
  let blank := blank_zero
  match fopen env path with
  | none => { ret := .returned none, calls := [] }
  | some fp =>
    let geo := _jpeg_read_geometry env fp blank.width blank.height
    let blank := { blank with width := geo.2.2.1, height := geo.2.2.2 }
    if geo.1 < 0 then { ret := .returned none, calls := [] }
    else
      let sk := fseek geo.2.1 0
      if sk.1 < 0 then { ret := .returned none, calls := [] }
      else
        let r := readLoop fuel sk.2 blank.picture
        match r.exit with
        | .ok => { ret := .returned (some { blank with picture := r.picture }),
                   calls := r.calls }
        | .error => { ret := .returned none, calls := r.calls }
        | .running => { ret := .running, calls := r.calls }

/-- Embedding of `blank_init`: `path = none` is a `NULL` path. -/
def blank_init (fuel : Nat) (env : Env) (hdr : BlankJpeg) (path : Option String) :
    Run (Option blank_t) :=
  let blank : Run (Option blank_t) :=
    match path with
    | some p => (_blank_init_external fuel env p).ret
    | none => .returned none
  match blank with
  | .running => .running
  | .returned (some b) => .returned (some b)
  | .returned none => .returned (_blank_init_internal hdr)

/-- The picture after the capacity check that opens an iteration of the read
loop (the `if` with its `A_REALLOC`). -/
def headPicture (pic : picture_t) : picture_t :=
  if decide (pic.used + CHUNK_SIZE ≥ pic.allocated) then
    { pic with
      allocated := pic.used + CHUNK_SIZE * 2
      data := A_REALLOC pic.data (pic.used + CHUNK_SIZE * 2) }
  else pic

/-- The stream after the `fread` of an iteration. -/
def bodyFile (fp : FILE) (pic : picture_t) : FILE :=
  (fread (headPicture pic).data (headPicture pic).used 1 CHUNK_SIZE fp).2.2

/-- The picture after the `fread` of an iteration and the update of `used`. -/
def bodyPicture (fp : FILE) (pic : picture_t) : picture_t :=
  { headPicture pic with
    data := (fread (headPicture pic).data (headPicture pic).used 1 CHUNK_SIZE fp).2.1
    used := (headPicture pic).used +
      (fread (headPicture pic).data (headPicture pic).used 1 CHUNK_SIZE fp).1 }

/-- The log entry of an iteration. -/
def bodyCall (fp : FILE) (pic : picture_t) : ReadCall :=
  { allocBefore := pic.allocated
    grown := decide (pic.used + CHUNK_SIZE ≥ pic.allocated)
    used := (headPicture pic).used
    allocated := (headPicture pic).allocated
    bufLen := (headPicture pic).data.length
    readed := (fread (headPicture pic).data (headPicture pic).used 1 CHUNK_SIZE fp).1 }

/-- The log entry that iteration `i` of a load leaves when every iteration grows
the block: the load starts with capacity `alloc0`, `used0` bytes in the block
and `rem` bytes left in the stream. -/
def expectedCall (alloc0 used0 rem i : Nat) : ReadCall :=
  { allocBefore := if i = 0 then alloc0 else used0 + (i + 1) * CHUNK_SIZE
    grown := true
    used := used0 + i * CHUNK_SIZE
    allocated := used0 + (i + 2) * CHUNK_SIZE
    bufLen := used0 + (i + 2) * CHUNK_SIZE
    readed := min CHUNK_SIZE (rem - i * CHUNK_SIZE) }

/-- The call `_jpeg_read_geometry(fp, &blank->width, &blank->height)` of
`_blank_init_external`, on the stream `fopen` returned. -/
def geometryStep (env : Env) (fp : FILE) : Int × FILE × Nat × Nat :=
  _jpeg_read_geometry env fp blank_zero.width blank_zero.height

/-- The call `fseek(fp, 0, SEEK_SET)` of `_blank_init_external`, on the stream as
`_jpeg_read_geometry` left it. -/
def seekStep (env : Env) (fp : FILE) : Int × FILE :=
  fseek (geometryStep env fp).2.1 0

/-- Every step of `_blank_init_external` succeeds for `path`: the path is not
`NULL`, `fopen` returns the stream `fp`, `_jpeg_read_geometry` returns `0`,
`fseek` returns `0`, and the stream can be read to its end, so that the only
short `fread` is the one that meets the end of the file. -/
def LoadsFrom (env : Env) (path : Option String) (p : String) (fp : FILE) : Prop :=
  path = some p ∧ fopen env p = some fp ∧ (geometryStep env fp).1 = 0 ∧
    (seekStep env fp).1 = 0 ∧ fp.limit = fp.content.length

/-! ## `encoders/omx/encoder.h` -/

/-- The macro `OMX_MAX_ENCODERS`: `((unsigned)(CFG_OMX_MAX_ENCODERS))`, where
`CFG_OMX_MAX_ENCODERS` is `3` unless the build defines it (`cfg = some c`). -/
def OMX_MAX_ENCODERS (cfg : Option Int) : Nat :=
  ((cfg.getD 3) % (2 : Int) ^ 32).toNat

/-- Modelled from the spec: the lifecycle states of a hardware codec session
(section 4.1); `encoder.c`, which would hold them, is not among the sources. -/
inductive SessionState where
  | Uninitialized
  | Created
  | PortsConfigured
  | Ready
  | Encoding
  | Failed
  | Destroyed
deriving DecidableEq

/-- The session record `struct omx_encoder_t` of `encoder.h`: the three flags,
the count of the semaphore `handler_sem` and the four `i_` marks.  The handle
and the two buffer headers are OMX objects; of them the model keeps the bytes of
the output buffer.  `state` is the lifecycle state the spec gives a session. -/
structure omx_encoder_t where
  output_buffer : List Byte
  input_required : Bool
  output_available : Bool
  failed : Bool
  handler_sem : Nat
  i_handler_sem : Bool
  i_encoder : Bool
  i_input_port_enabled : Bool
  i_output_port_enabled : Bool
  state : SessionState
deriving DecidableEq

/-- Modelled from the spec: the completion notifications of the hardware
(section 4.1): input slot freed, output buffer filled, or error. -/
inductive Notice where
  | inputFreed
  | outputFilled (bytes : List Byte)
  | hardwareError
deriving DecidableEq

/-- Modelled from the spec: the outcome of `compress` (section 4.1): the
compressed bytes, or one of the errors surfaced to the caller. -/
inductive CompressResult where
  | compressed (bytes : List Byte)
  | NotReady
  | Timeout
  | HardwareRejected
deriving DecidableEq

/-- Modelled from the spec: the notification handler of section 4.1, which
`encoder.c` would define: it records which condition fired in the
corresponding flag and releases the rendezvous primitive, and does nothing
else. -/
def omx_handler (omx : omx_encoder_t) : Notice → omx_encoder_t
  | .inputFreed => { omx with input_required := true, handler_sem := omx.handler_sem + 1 }
  | .outputFilled bytes =>
    { omx with output_available := true, output_buffer := bytes,
               handler_sem := omx.handler_sem + 1 }
  | .hardwareError => { omx with failed := true, handler_sem := omx.handler_sem + 1 }

/-- Modelled from the spec: a timed-out wait (sections 4.1 and 5): the session
transitions to `Failed`. -/
def omx_timed_out (omx : omx_encoder_t) : omx_encoder_t :=
  { omx with failed := true, state := .Failed }

/-- Modelled from the spec: the blocking part of `compress` (section 4.1), which
`encoder.c` would define.  The hardware is the list of its notifications, each
with the time that passes before it arrives, counted from the start of the wait
it ends.  Every wait has the deadline `deadline`: when no notification arrives
in time the session fails and the call returns `Timeout`; otherwise the handler
runs, the caller wakes, takes the signal and inspects the flags: it fails on the
error flag, completes when output is available, and waits again when only the
input slot was freed.  The third component is the time the call took. -/
def omx_wait_loop (deadline : Nat) :
    List (Nat × Notice) → omx_encoder_t → Nat → CompressResult × omx_encoder_t × Nat
  | [], omx, t => (.Timeout, omx_timed_out omx, t + deadline)
  | (d, n) :: hw, omx, t =>
    if deadline < d then (.Timeout, omx_timed_out omx, t + deadline)
    else
      let omx := omx_handler omx n
      let omx := { omx with handler_sem := omx.handler_sem - 1 }
      if omx.failed then (.HardwareRejected, { omx with state := .Failed }, t + d)
      else if omx.output_available then
        (.compressed omx.output_buffer,
          { omx with output_available := false, state := .Ready }, t + d)
      else omx_wait_loop deadline hw { omx with input_required := false } (t + d)

/-- Modelled from the spec: `omx_encoder_compress_buffer`, declared in
`encoder.h` and defined in `encoder.c`, which is not among the sources; this is
the `compress` of section 4.1.  A session that is not `Ready` answers
`NotReady`; otherwise the frame is submitted (`Encoding`) and the call blocks
in `omx_wait_loop`. -/
def omx_encoder_compress_buffer (deadline : Nat) (hw : List (Nat × Notice))
    (omx : omx_encoder_t) : CompressResult × omx_encoder_t × Nat :=
  if omx.state ≠ .Ready then (.NotReady, omx, 0)
  else
    omx_wait_loop deadline hw
      { omx with state := .Encoding, input_required := false, output_available := false } 0

/-- Modelled from the spec: the tag of one session of the encoder pool (sections
3 and 4.2): free, busy, or failed and out of the free set. -/
inductive SlotTag where
  | free
  | busy
  | failed
deriving DecidableEq

/-- Modelled from the spec: the encoder pool (sections 3, 4.2 and 9), which the
sources do not hold: an arena of sessions indexed by slot, each tagged, and the
frames in flight, each with the slot it was submitted to and its sequence
number. -/
structure EncoderPool where
  tags : List SlotTag
  inflight : List (Nat × Nat)
deriving DecidableEq

/-- Modelled from the spec: the answer of `submit` (sections 4.2 and 7): the
frame was assigned to a slot, or no backend is free and the call is rejected
(`PoolExhausted`, blocking disabled) or has to wait (blocking enabled). -/
inductive SubmitResult where
  | accepted (slot : Nat)
  | PoolExhausted
  | blocked
deriving DecidableEq

/-- Modelled from the spec: the pool is created with the desired backend count,
never beyond the hardware ceiling (sections 6 and 9); all sessions start free. -/
def EncoderPool.create (ceiling desired : Nat) : EncoderPool :=
  { tags := List.replicate (min desired ceiling) .free, inflight := [] }

/-- Modelled from the spec: the first free slot (the deterministic first-free
choice of section 4.2). -/
def firstFree : List SlotTag → Option Nat
  | [] => none
  | .free :: _ => some 0
  | .busy :: rest => (firstFree rest).map (· + 1)
  | .failed :: rest => (firstFree rest).map (· + 1)

/-- Modelled from the spec: `submit` (section 4.2) up to the point where the
frame is handed to the backend: the frame goes to the first free session, which
is marked busy; with no free session the pool is left as it is and the call is
rejected or blocks, by policy. -/
def EncoderPool.submit (pool : EncoderPool) (frame : Nat) (blocking : Bool) :
    EncoderPool × SubmitResult :=
  match firstFree pool.tags with
  | some i =>
    ({ tags := pool.tags.set i .busy, inflight := (i, frame) :: pool.inflight }, .accepted i)
  | none => (pool, if blocking then .blocked else .PoolExhausted)

/-- Modelled from the spec: the return of a backend's `compress` (section 4.2):
the frame leaves the pool; the session goes back to the free set, or is marked
failed and stays out of it. -/
def EncoderPool.complete (pool : EncoderPool) (slot : Nat) (ok : Bool) : EncoderPool :=
  if pool.tags[slot]? = some .busy then
    { tags := pool.tags.set slot (if ok then .free else .failed)
      inflight := pool.inflight.filter (fun e => decide (e.1 ≠ slot)) }
  else pool

/-- An event at the pool: a submission, or the completion of a frame. -/
inductive PoolEvent where
  | submit (frame : Nat) (blocking : Bool)
  | complete (slot : Nat) (ok : Bool)
deriving DecidableEq

/-- The pool after one event. -/
def EncoderPool.step (pool : EncoderPool) : PoolEvent → EncoderPool
  | .submit frame blocking => (pool.submit frame blocking).1
  | .complete slot ok => pool.complete slot ok

/-- The pool after a sequence of events. -/
def EncoderPool.run (pool : EncoderPool) (events : List PoolEvent) : EncoderPool :=
  events.foldl EncoderPool.step pool

/-- The slots that have a frame in flight. -/
def EncoderPool.slots (pool : EncoderPool) : List Nat :=
  pool.inflight.map Prod.fst

/-- The bookkeeping invariant of the pool: no slot holds two frames, and the
slots with a frame in flight are exactly the sessions tagged busy. -/
def EncoderPool.Consistent (pool : EncoderPool) : Prop :=
  pool.slots.Nodup ∧ ∀ i, i ∈ pool.slots ↔ pool.tags[i]? = some .busy

/-! ## Inputs for small runs -/

/-- A three byte file that libjpeg accepts as a 640x480 image. -/
def demoEnv : Env :=
  { files := fun p => if p = "blank.jpg" then
      some { content := [0xFF, 0xD8, 0xFF], seekable := true, badFrom := none }
      else if p = "bad.jpg" then
      some { content := [0xFF, 0xD8, 0xFF], seekable := true, badFrom := some 2 }
      else none
    jpeg := fun bytes => if bytes.length < 2 then none else some (640, 480)
    jpegConsumed := fun bytes => bytes.length }

/-- A two byte embedded image. -/
def demoHdr : BlankJpeg :=
  { BLANK_JPEG_DATA := [0xFF, 0xD9], BLANK_JPEG_WIDTH := 4, BLANK_JPEG_HEIGHT := 3 }

/-- The stream `fopen` returns for `blank.jpg` in `demoEnv`. -/
def demoFile : FILE :=
  { content := [0xFF, 0xD8, 0xFF], seekable := true, badFrom := none,
    pos := 0, eof := false, error := false }

/-- The log entry of the only `fread` call that loads `demoFile`. -/
def demoCall : ReadCall :=
  { allocBefore := 0, grown := true, used := 0, allocated := 204800, bufLen := 204800,
    readed := 3 }

/-- A session in the `Ready` state. -/
def demoSession : omx_encoder_t :=
  { output_buffer := [], input_required := false, output_available := false, failed := false,
    handler_sem := 0, i_handler_sem := true, i_encoder := true, i_input_port_enabled := true,
    i_output_port_enabled := true, state := .Ready }

/-! # Theorems -/

/-! ## libc and the heap: basic facts -/

theorem FILE.limit_le (fp : FILE) : fp.limit ≤ fp.content.length := by
  unfold FILE.limit
  cases fp.badFrom with
  | none => exact le_rfl
  | some b => exact min_le_right _ _

theorem FILE.readable_length (fp : FILE) : fp.readable.length = fp.limit := by
  unfold FILE.readable
  rw [List.length_take]
  exact min_eq_left fp.limit_le

theorem store_length (buf : List Byte) (off : Nat) (bytes : List Byte)
    (h : off + bytes.length ≤ buf.length) : (store buf off bytes).length = buf.length := by
  unfold store
  simp only [List.length_append, List.length_take, List.length_drop]
  omega

theorem store_take (buf : List Byte) (off : Nat) (bytes : List Byte)
    (h : off ≤ buf.length) :
    (store buf off bytes).take (off + bytes.length) = buf.take off ++ bytes := by
  unfold store
  have hl : (buf.take off ++ bytes).length = off + bytes.length := by
    simp only [List.length_append, List.length_take]; omega
  rw [← hl, List.take_left]

theorem A_REALLOC_length (dest : List Byte) (n : Nat) : (A_REALLOC dest n).length = n := by
  unfold A_REALLOC
  simp only [List.length_append, List.length_take, List.length_replicate]
  omega

theorem A_REALLOC_take (dest : List Byte) (n k : Nat) (hk : k ≤ dest.length) (hn : k ≤ n) :
    (A_REALLOC dest n).take k = dest.take k := by
  unfold A_REALLOC
  rw [List.take_append_of_le_length (by simp only [List.length_take]; omega)]
  rw [List.take_take, min_eq_left hn]

theorem fread_count (buf : List Byte) (off n : Nat) (fp : FILE) :
    (fread buf off 1 n fp).1 = min n (fp.limit - fp.pos) := by
  simp only [fread, Nat.div_one, one_mul, List.length_take, List.length_drop,
    FILE.readable_length]

theorem fread_buf (buf : List Byte) (off n : Nat) (fp : FILE) :
    (fread buf off 1 n fp).2.1 = store buf off ((fp.readable.drop fp.pos).take n) := by
  simp only [fread, one_mul]

theorem fread_limit (buf : List Byte) (off n : Nat) (fp : FILE) :
    (fread buf off 1 n fp).2.2.limit = fp.limit := by
  simp only [fread, FILE.limit]

theorem fread_readable (buf : List Byte) (off n : Nat) (fp : FILE) :
    (fread buf off 1 n fp).2.2.readable = fp.readable := by
  simp only [fread, FILE.readable, FILE.limit]

theorem fread_content (buf : List Byte) (off n : Nat) (fp : FILE) :
    (fread buf off 1 n fp).2.2.content = fp.content := by
  simp only [fread]

theorem fread_pos (buf : List Byte) (off n : Nat) (fp : FILE) :
    (fread buf off 1 n fp).2.2.pos = fp.pos + min n (fp.limit - fp.pos) := by
  simp only [fread, one_mul, List.length_take, List.length_drop, FILE.readable_length]

theorem fread_eof (buf : List Byte) (off n : Nat) (fp : FILE) :
    (fread buf off 1 n fp).2.2.eof =
      (fp.eof || (decide (fp.limit - fp.pos < n) && !decide (fp.limit < fp.content.length))) := by
  simp only [fread, one_mul, List.length_take, List.length_drop, FILE.readable_length]
  congr 2
  simp only [decide_eq_decide]
  omega

/-! ## One iteration of the read loop -/

theorem CHUNK_SIZE_val : CHUNK_SIZE = 102400 := by decide

theorem readLoop_zero (fp : FILE) (pic : picture_t) :
    readLoop 0 fp pic = { exit := .running, picture := pic, fp := fp, calls := [] } := rfl

theorem readLoop_succ (fuel : Nat) (fp : FILE) (pic : picture_t) :
    readLoop (fuel + 1) fp pic =
      if (fread (headPicture pic).data (headPicture pic).used 1 CHUNK_SIZE fp).1 < CHUNK_SIZE then
        if feof (bodyFile fp pic) then
          { exit := .ok, picture := bodyPicture fp pic, fp := bodyFile fp pic,
            calls := [bodyCall fp pic] }
        else
          { exit := .error, picture := bodyPicture fp pic, fp := bodyFile fp pic,
            calls := [bodyCall fp pic] }
      else
        { readLoop fuel (bodyFile fp pic) (bodyPicture fp pic) with
          calls := bodyCall fp pic :: (readLoop fuel (bodyFile fp pic) (bodyPicture fp pic)).calls } :=
  rfl

theorem headPicture_used (pic : picture_t) : (headPicture pic).used = pic.used := by
  unfold headPicture
  split <;> rfl

theorem headPicture_room (pic : picture_t) :
    (headPicture pic).used + CHUNK_SIZE < (headPicture pic).allocated := by
  have hC := CHUNK_SIZE_val
  unfold headPicture
  split
  · simp only; omega
  · rename_i h
    simp only [ge_iff_le, decide_eq_true_eq, not_le] at h
    exact h

theorem headPicture_mono (pic : picture_t) : pic.allocated ≤ (headPicture pic).allocated := by
  have hC := CHUNK_SIZE_val
  unfold headPicture
  split
  · rename_i h
    simp only [ge_iff_le, decide_eq_true_eq] at h
    simp only; omega
  · exact le_rfl

theorem headPicture_length (pic : picture_t) (h : pic.data.length = pic.allocated) :
    (headPicture pic).data.length = (headPicture pic).allocated := by
  unfold headPicture
  split
  · simp only [A_REALLOC_length]
  · exact h

theorem headPicture_grown (pic : picture_t) (h : pic.allocated ≤ pic.used + CHUNK_SIZE) :
    headPicture pic =
      { pic with
        allocated := pic.used + CHUNK_SIZE * 2
        data := A_REALLOC pic.data (pic.used + CHUNK_SIZE * 2) } := by
  unfold headPicture
  rw [if_pos]
  simpa using h

theorem headPicture_kept (pic : picture_t) (h : pic.used + CHUNK_SIZE < pic.allocated) :
    headPicture pic = pic := by
  unfold headPicture
  rw [if_neg]
  simpa using h

theorem bodyPicture_allocated (fp : FILE) (pic : picture_t) :
    (bodyPicture fp pic).allocated = (headPicture pic).allocated := rfl

theorem bodyPicture_used (fp : FILE) (pic : picture_t) :
    (bodyPicture fp pic).used = pic.used + min CHUNK_SIZE (fp.limit - fp.pos) := by
  simp only [bodyPicture, fread_count, headPicture_used]

theorem bodyPicture_length (fp : FILE) (pic : picture_t) (h : pic.data.length = pic.allocated) :
    (bodyPicture fp pic).data.length = (bodyPicture fp pic).allocated := by
  have hr := headPicture_room pic
  have hl := headPicture_length pic h
  simp only [bodyPicture, fread_buf]
  rw [store_length, hl]
  simp only [List.length_take, List.length_drop]
  omega

theorem bodyFile_limit (fp : FILE) (pic : picture_t) : (bodyFile fp pic).limit = fp.limit := by
  simp only [bodyFile, fread_limit]

theorem bodyFile_readable (fp : FILE) (pic : picture_t) :
    (bodyFile fp pic).readable = fp.readable := by
  simp only [bodyFile, fread_readable]

theorem bodyFile_content (fp : FILE) (pic : picture_t) :
    (bodyFile fp pic).content = fp.content := by
  simp only [bodyFile, fread_content]

theorem bodyFile_pos (fp : FILE) (pic : picture_t) :
    (bodyFile fp pic).pos = fp.pos + min CHUNK_SIZE (fp.limit - fp.pos) := by
  simp only [bodyFile, fread_pos]

theorem bodyFile_eof (fp : FILE) (pic : picture_t) :
    (bodyFile fp pic).eof =
      (fp.eof || (decide (fp.limit - fp.pos < CHUNK_SIZE) &&
        !decide (fp.limit < fp.content.length))) := by
  simp only [bodyFile, fread_eof]

/-- What every iteration of the read loop satisfies at its `fread` call, from
any state whose block has the size recorded in `allocated`. -/
theorem readLoop_calls_sound (fuel : Nat) :
    ∀ (fp : FILE) (pic : picture_t), pic.data.length = pic.allocated →
      ∀ c ∈ (readLoop fuel fp pic).calls,
        c.allocBefore ≤ c.allocated ∧
        (c.grown = true → c.allocated = c.used + CHUNK_SIZE * 2 ∧ c.allocBefore < c.allocated) ∧
        (c.grown = false → c.allocated = c.allocBefore) ∧
        c.used + CHUNK_SIZE < c.allocated ∧
        c.bufLen = c.allocated ∧
        c.readed ≤ CHUNK_SIZE := by
  induction fuel with
  | zero =>
    intro fp pic _ c hc
    simp only [readLoop_zero, List.not_mem_nil] at hc
  | succ fuel ih =>
    intro fp pic hlen c hc
    have hC := CHUNK_SIZE_val
    have hbody : ∀ d, d = bodyCall fp pic →
        d.allocBefore ≤ d.allocated ∧
        (d.grown = true → d.allocated = d.used + CHUNK_SIZE * 2 ∧ d.allocBefore < d.allocated) ∧
        (d.grown = false → d.allocated = d.allocBefore) ∧
        d.used + CHUNK_SIZE < d.allocated ∧
        d.bufLen = d.allocated ∧
        d.readed ≤ CHUNK_SIZE := by
      intro d hd
      subst hd
      refine ⟨headPicture_mono pic, ?_, ?_, headPicture_room pic, headPicture_length pic hlen, ?_⟩
      · intro hg
        simp only [bodyCall, ge_iff_le, decide_eq_true_eq] at hg
        simp only [bodyCall, headPicture_grown pic hg, true_and]
        omega
      · intro hg
        simp only [bodyCall, ge_iff_le, decide_eq_false_iff_not, not_le] at hg
        simp only [bodyCall, headPicture_kept pic hg]
      · simp only [bodyCall, fread_count]
        exact min_le_left _ _
    rw [readLoop_succ] at hc
    split at hc
    · split at hc
      · simp only [List.mem_singleton] at hc
        exact hbody c hc
      · simp only [List.mem_singleton] at hc
        exact hbody c hc
    · simp only [List.mem_cons] at hc
      rcases hc with hc | hc
      · exact hbody c hc
      · exact ih (bodyFile fp pic) (bodyPicture fp pic) (bodyPicture_length fp pic hlen) c hc

/-! ## The whole read loop -/

theorem bodyCall_grown (fp : FILE) (pic : picture_t)
    (hg : pic.allocated ≤ pic.used + CHUNK_SIZE) :
    bodyCall fp pic = expectedCall pic.allocated pic.used (fp.limit - fp.pos) 0 := by
  have hd : decide (pic.used + CHUNK_SIZE ≥ pic.allocated) = true := by simpa using hg
  simp only [bodyCall, expectedCall, fread_count, headPicture_grown pic hg, A_REALLOC_length,
    hd, if_true, zero_mul, add_zero, Nat.sub_zero, zero_add, ReadCall.mk.injEq, true_and,
    and_true]
  omega

theorem bodyPicture_take (fp : FILE) (pic : picture_t)
    (hg : pic.allocated ≤ pic.used + CHUNK_SIZE) (hlen : pic.data.length = pic.allocated)
    (hused : pic.used ≤ pic.allocated) :
    (bodyPicture fp pic).data.take (pic.used + min CHUNK_SIZE (fp.limit - fp.pos)) =
      pic.data.take pic.used ++ (fp.readable.drop fp.pos).take CHUNK_SIZE := by
  have hC := CHUNK_SIZE_val
  have hgl : ((fp.readable.drop fp.pos).take CHUNK_SIZE).length =
      min CHUNK_SIZE (fp.limit - fp.pos) := by
    simp only [List.length_take, List.length_drop, FILE.readable_length]
  simp only [bodyPicture, fread_buf, headPicture_grown pic hg]
  rw [← hgl, store_take _ _ _ (by rw [A_REALLOC_length]; omega),
    A_REALLOC_take _ _ _ (by omega) (by omega)]

/-- A load that starts with no spare chunk (`allocated ≤ used + CHUNK_SIZE`) on a
stream whose end-of-file indicator is clear: the exit, the final picture and
the whole log, given a budget of more than `rem / CHUNK_SIZE` iterations. -/
theorem readLoop_run (fuel : Nat) :
    ∀ (fp : FILE) (pic : picture_t), fp.eof = false →
      (fp.limit - fp.pos) / CHUNK_SIZE < fuel →
      pic.allocated ≤ pic.used + CHUNK_SIZE →
      pic.data.length = pic.allocated →
      pic.used ≤ pic.allocated →
      (readLoop fuel fp pic).exit =
          (if fp.limit < fp.content.length then Exit.error else Exit.ok) ∧
        (readLoop fuel fp pic).picture.used = pic.used + (fp.limit - fp.pos) ∧
        (readLoop fuel fp pic).picture.allocated =
          pic.used + ((fp.limit - fp.pos) / CHUNK_SIZE + 2) * CHUNK_SIZE ∧
        (readLoop fuel fp pic).picture.data.length = (readLoop fuel fp pic).picture.allocated ∧
        (readLoop fuel fp pic).picture.data.take (pic.used + (fp.limit - fp.pos)) =
          pic.data.take pic.used ++ fp.readable.drop fp.pos ∧
        (readLoop fuel fp pic).calls =
          (List.range ((fp.limit - fp.pos) / CHUNK_SIZE + 1)).map
            (expectedCall pic.allocated pic.used (fp.limit - fp.pos)) := by
  induction fuel with
  | zero => intro fp pic _ hfuel; exact absurd hfuel (Nat.not_lt_zero _)
  | succ fuel ih =>
    intro fp pic heof hfuel hg hlen hused
    have hC := CHUNK_SIZE_val
    have hcnt := fread_count (headPicture pic).data (headPicture pic).used CHUNK_SIZE fp
    have hbu := bodyPicture_used fp pic
    have hba : (bodyPicture fp pic).allocated = pic.used + CHUNK_SIZE * 2 := by
      rw [bodyPicture_allocated, headPicture_grown pic hg]
    have hbl := bodyPicture_length fp pic hlen
    have hbt := bodyPicture_take fp pic hg hlen hused
    have hbc := bodyCall_grown fp pic hg
    rw [readLoop_succ, hcnt]
    by_cases hshort : fp.limit - fp.pos < CHUNK_SIZE
    · -- the last iteration: a short read
      have hmin : min CHUNK_SIZE (fp.limit - fp.pos) = fp.limit - fp.pos :=
        min_eq_right (le_of_lt hshort)
      have hdiv : (fp.limit - fp.pos) / CHUNK_SIZE = 0 := Nat.div_eq_of_lt hshort
      have hall : ((fp.readable.drop fp.pos).take CHUNK_SIZE) = fp.readable.drop fp.pos := by
        apply List.take_of_length_le
        simp only [List.length_drop, FILE.readable_length]
        omega
      rw [hmin] at hbu hbt
      rw [hall] at hbt
      rw [if_pos (by rw [hmin]; exact hshort)]
      have hfe : feof (bodyFile fp pic) = !decide (fp.limit < fp.content.length) := by
        simp only [feof, bodyFile_eof, heof, hshort, decide_True, Bool.true_and, Bool.false_or]
      rw [hfe, hdiv]
      by_cases hbad : fp.limit < fp.content.length
      · simp only [hbad, decide_True, Bool.not_true, if_true, Bool.false_eq_true, if_false]
        exact ⟨trivial, hbu, by rw [hba]; omega, hbl, hbt, by rw [hbc]; rfl⟩
      · simp only [hbad, decide_False, Bool.not_false, if_true, if_false]
        exact ⟨trivial, hbu, by rw [hba]; omega, hbl, hbt, by rw [hbc]; rfl⟩
    · -- a full chunk was read: the loop goes round again
      have hge : CHUNK_SIZE ≤ fp.limit - fp.pos := Nat.le_of_not_lt hshort
      have hmin : min CHUNK_SIZE (fp.limit - fp.pos) = CHUNK_SIZE := min_eq_left hge
      rw [hmin] at hbu hbt
      rw [if_neg (by rw [hmin]; exact lt_irrefl _)]
      have hpos : (bodyFile fp pic).pos = fp.pos + CHUNK_SIZE := by
        rw [bodyFile_pos, hmin]
      have hrem : (bodyFile fp pic).limit - (bodyFile fp pic).pos =
          fp.limit - fp.pos - CHUNK_SIZE := by
        rw [bodyFile_limit, hpos]; omega
      have heof1 : (bodyFile fp pic).eof = false := by
        simp only [bodyFile_eof, heof, hshort, decide_False, Bool.false_and, Bool.or_self]
      have hdiv : (fp.limit - fp.pos) / CHUNK_SIZE =
          (fp.limit - fp.pos - CHUNK_SIZE) / CHUNK_SIZE + 1 := by
        rw [hC] at hge ⊢; omega
      obtain ⟨e1, e2, e3, e4, e5, e6⟩ := ih (bodyFile fp pic) (bodyPicture fp pic) heof1
        (by rw [hrem]; rw [hdiv] at hfuel; omega) (by rw [hba, hbu]; omega) hbl
        (by rw [hba, hbu]; omega)
      rw [bodyFile_limit, bodyFile_content] at e1
      rw [hrem] at e2 e3 e5 e6
      rw [hbu] at e2 e3 e5
      rw [bodyFile_readable, hpos] at e5
      refine ⟨e1, ?_, ?_, e4, ?_, ?_⟩
      · simp only; rw [e2]; omega
      · simp only; rw [e3, hdiv]; rw [hC]; omega
      · simp only
        have hsum : pic.used + (fp.limit - fp.pos) =
            pic.used + CHUNK_SIZE + (fp.limit - fp.pos - CHUNK_SIZE) := by omega
        have hsplit : (fp.readable.drop fp.pos).take CHUNK_SIZE ++
            fp.readable.drop (fp.pos + CHUNK_SIZE) = fp.readable.drop fp.pos := by
          rw [← List.drop_drop, List.take_append_drop]
        rw [hsum, e5, hbt, List.append_assoc, hsplit]
      · simp only
        have hm : List.map (expectedCall (bodyPicture fp pic).allocated (bodyPicture fp pic).used
              (fp.limit - fp.pos - CHUNK_SIZE))
              (List.range ((fp.limit - fp.pos - CHUNK_SIZE) / CHUNK_SIZE + 1)) =
            List.map (expectedCall pic.allocated pic.used (fp.limit - fp.pos) ∘ Nat.succ)
              (List.range ((fp.limit - fp.pos - CHUNK_SIZE) / CHUNK_SIZE + 1)) := by
          apply List.map_congr_left
          intro i _
          simp only [Function.comp, expectedCall, hba, hbu, ReadCall.mk.injEq, true_and,
            Nat.succ_ne_zero, if_false, Nat.succ_eq_add_one]
          refine ⟨?_, ?_, ?_, ?_⟩
          · split <;> (rw [hC]; omega)
          · rw [hC]; omega
          · rw [hC]; omega
          · rw [hC]; omega
        rw [hdiv, List.range_succ_eq_map, List.map_cons, List.map_map, ← hm, ← hbc, e6]

/-! ## The steps before the loop -/

/-- Consecutive iterations of the read loop hand the capacity on unchanged, and
the capacity never decreases from one `fread` call to the next. -/
theorem readLoop_calls_chain (fuel : Nat) :
    ∀ (fp : FILE) (pic : picture_t), pic.data.length = pic.allocated →
      (∀ c ∈ (readLoop fuel fp pic).calls.head?, c.allocBefore = pic.allocated) ∧
      List.Chain' (fun a b : ReadCall => b.allocBefore = a.allocated ∧ a.allocated ≤ b.allocated)
        (readLoop fuel fp pic).calls ∧
      pic.allocated ≤ (readLoop fuel fp pic).picture.allocated := by
  induction fuel with
  | zero =>
    intro fp pic _
    simp only [readLoop_zero, List.head?_nil, Option.mem_def, reduceCtorEq, false_implies,
      implies_true, List.chain'_nil, le_refl, and_self]
  | succ fuel ih =>
    intro fp pic hlen
    have hmono := headPicture_mono pic
    rw [readLoop_succ]
    split
    · split
      · simp only [List.head?_cons, Option.mem_def, Option.some.injEq, List.chain'_singleton,
          true_and, bodyPicture_allocated]
        exact ⟨fun c hc => by rw [← hc]; rfl, hmono⟩
      · simp only [List.head?_cons, Option.mem_def, Option.some.injEq, List.chain'_singleton,
          true_and, bodyPicture_allocated]
        exact ⟨fun c hc => by rw [← hc]; rfl, hmono⟩
    · obtain ⟨h1, h2, h3⟩ := ih (bodyFile fp pic) (bodyPicture fp pic)
        (bodyPicture_length fp pic hlen)
      simp only [List.head?_cons, Option.mem_def, Option.some.injEq]
      refine ⟨fun c hc => by rw [← hc]; rfl, ?_, ?_⟩
      · rw [List.chain'_cons']
        refine ⟨?_, h2⟩
        intro y hy
        have hy1 := h1 y hy
        have hy2 := (readLoop_calls_sound fuel (bodyFile fp pic) (bodyPicture fp pic)
          (bodyPicture_length fp pic hlen) y (List.mem_of_mem_head? hy)).1
        rw [bodyPicture_allocated] at hy1
        exact ⟨hy1, by rw [hy1] at hy2; exact hy2⟩
      · rw [bodyPicture_allocated] at h3
        exact le_trans hmono h3

theorem geometry_status (env : Env) (fp : FILE) (w h : Nat) :
    (_jpeg_read_geometry env fp w h).1 = 0 ∨ (_jpeg_read_geometry env fp w h).1 = -1 := by
  unfold _jpeg_read_geometry
  cases hd : env.jpeg fp.readable with
  | none => right; simp
  | some g => left; simp

theorem geometry_stream (env : Env) (fp : FILE) (w h : Nat) :
    (_jpeg_read_geometry env fp w h).2.1 = { fp with pos := env.jpegConsumed fp.readable } := by
  unfold _jpeg_read_geometry
  cases hd : env.jpeg fp.readable with
  | none => simp
  | some g => simp

theorem fseek_status (fp : FILE) (off : Nat) :
    (fseek fp off).1 = 0 ∨ (fseek fp off).1 = -1 := by
  unfold fseek
  split
  · left; rfl
  · right; rfl

theorem fseek_stream (fp : FILE) (off : Nat) (h : (fseek fp off).1 = 0) :
    (fseek fp off).2 = { fp with pos := off, eof := false } := by
  unfold fseek at h ⊢
  split
  · rfl
  · rename_i hs
    rw [if_neg hs] at h
    simp at h

/-! ## `_blank_init_external` -/

theorem external_unfold (fuel : Nat) (env : Env) (p : String) (fp : FILE)
    (hopen : fopen env p = some fp) :
    _blank_init_external fuel env p =
      if (geometryStep env fp).1 < 0 then { ret := .returned none, calls := [] }
      else if (seekStep env fp).1 < 0 then { ret := .returned none, calls := [] }
      else
        match (readLoop fuel (seekStep env fp).2 blank_zero.picture).exit with
        | .ok => { ret := .returned (some
                      { picture := (readLoop fuel (seekStep env fp).2 blank_zero.picture).picture
                        width := (geometryStep env fp).2.2.1
                        height := (geometryStep env fp).2.2.2 })
                   calls := (readLoop fuel (seekStep env fp).2 blank_zero.picture).calls }
        | .error => { ret := .returned none
                      calls := (readLoop fuel (seekStep env fp).2 blank_zero.picture).calls }
        | .running => { ret := .running
                        calls := (readLoop fuel (seekStep env fp).2 blank_zero.picture).calls } := by
  simp only [_blank_init_external, hopen]
  rfl

theorem external_no_open (fuel : Nat) (env : Env) (p : String) (hopen : fopen env p = none) :
    _blank_init_external fuel env p = { ret := .returned none, calls := [] } := by
  simp only [_blank_init_external, hopen]

theorem external_no_geometry (fuel : Nat) (env : Env) (p : String) (fp : FILE)
    (hopen : fopen env p = some fp) (hgeo : (geometryStep env fp).1 ≠ 0) :
    _blank_init_external fuel env p = { ret := .returned none, calls := [] } := by
  rw [external_unfold fuel env p fp hopen]
  have h := geometry_status env fp blank_zero.width blank_zero.height
  have hneg : (geometryStep env fp).1 < 0 := by
    rcases h with h | h
    · exact absurd h hgeo
    · unfold geometryStep; rw [h]; decide
  rw [if_pos hneg]

theorem external_no_seek (fuel : Nat) (env : Env) (p : String) (fp : FILE)
    (hopen : fopen env p = some fp) (hseek : (seekStep env fp).1 ≠ 0) :
    _blank_init_external fuel env p = { ret := .returned none, calls := [] } := by
  rw [external_unfold fuel env p fp hopen]
  have h := fseek_status (geometryStep env fp).2.1 0
  have hneg : (seekStep env fp).1 < 0 := by
    rcases h with h | h
    · exact absurd h hseek
    · unfold seekStep; rw [h]; decide
  by_cases hg : (geometryStep env fp).1 < 0
  · rw [if_pos hg]
  · rw [if_neg hg, if_pos hneg]

/-- The stream the read loop starts from: the opened file, rewound. -/
theorem seekStep_stream (env : Env) (fp : FILE)
    (hseek : (seekStep env fp).1 = 0) :
    (seekStep env fp).2.pos = 0 ∧ (seekStep env fp).2.eof = false ∧
      (seekStep env fp).2.limit = fp.limit ∧ (seekStep env fp).2.content = fp.content ∧
      (seekStep env fp).2.readable = fp.readable := by
  have hs := fseek_stream (geometryStep env fp).2.1 0 hseek
  have hg := geometry_stream env fp blank_zero.width blank_zero.height
  unfold seekStep
  rw [hs]
  unfold geometryStep
  rw [hg]
  simp only [FILE.limit, FILE.readable, and_self]

/-- Every log of `_blank_init_external` is the log of a run of the read loop
from the zeroed placeholder, or is empty. -/
theorem external_calls (fuel : Nat) (env : Env) (p : String) :
    (_blank_init_external fuel env p).calls = [] ∨
      ∃ fp, (_blank_init_external fuel env p).calls =
        (readLoop fuel fp blank_zero.picture).calls := by
  cases hopen : fopen env p with
  | none => left; rw [external_no_open fuel env p hopen]
  | some fp =>
    rw [external_unfold fuel env p fp hopen]
    split
    · left; rfl
    · split
      · left; rfl
      · right
        refine ⟨(seekStep env fp).2, ?_⟩
        split <;> rfl

/-- The run of `_blank_init_external` once the file is open, decoded and rewound. -/
theorem external_run (fuel : Nat) (env : Env) (p : String) (fp : FILE)
    (hopen : fopen env p = some fp) (hgeo : (geometryStep env fp).1 = 0)
    (hseek : (seekStep env fp).1 = 0) (hfuel : fp.limit / CHUNK_SIZE < fuel) :
    (_blank_init_external fuel env p).calls =
        (List.range (fp.limit / CHUNK_SIZE + 1)).map (expectedCall 0 0 fp.limit) ∧
      (fp.limit < fp.content.length →
        (_blank_init_external fuel env p).ret = .returned none) ∧
      (fp.limit = fp.content.length →
        ∃ pic : picture_t,
          (_blank_init_external fuel env p).ret = .returned (some
            { picture := pic
              width := (geometryStep env fp).2.2.1
              height := (geometryStep env fp).2.2.2 }) ∧
          pic.used = fp.content.length ∧
          pic.allocated = (fp.content.length / CHUNK_SIZE + 2) * CHUNK_SIZE ∧
          pic.data.length = pic.allocated ∧
          pic.data.take fp.content.length = fp.content) := by
  obtain ⟨s1, s2, s3, s4, s5⟩ := seekStep_stream env fp hseek
  obtain ⟨e1, e2, e3, e4, e5, e6⟩ := readLoop_run fuel (seekStep env fp).2 blank_zero.picture s2
    (by rw [s3, s1]; exact hfuel) (Nat.zero_le _) rfl (Nat.le_refl _)
  rw [s3, s4] at e1
  rw [s3, s1, Nat.sub_zero] at e2 e3 e5 e6
  rw [s5] at e5
  have z1 : blank_zero.picture.used = 0 := rfl
  have z2 : blank_zero.picture.allocated = 0 := rfl
  have z3 : blank_zero.picture.data = [] := rfl
  simp only [z1, z2, z3, List.take_nil, List.nil_append, List.drop_zero, zero_add]
    at e2 e3 e5 e6
  rw [external_unfold fuel env p fp hopen, if_neg (by rw [hgeo]; decide),
    if_neg (by rw [hseek]; decide)]
  by_cases hbad : fp.limit < fp.content.length
  · rw [if_pos hbad] at e1
    rw [e1]
    exact ⟨e6, fun _ => rfl, fun h => absurd h (Nat.ne_of_lt hbad)⟩
  · rw [if_neg hbad] at e1
    rw [e1]
    refine ⟨e6, fun h => absurd h hbad, fun h => ?_⟩
    refine ⟨_, rfl, ?_, ?_, e4, ?_⟩
    · rw [e2, h]
    · rw [e3, h]
    · rw [← h, e5]
      unfold FILE.readable
      rw [h, List.take_length]

/-! ## `blank_init` -/

theorem store_zero_all (src : List Byte) :
    store (List.replicate src.length 0) 0 (src.take src.length) = src := by
  unfold store
  simp only [List.take_zero, List.take_length, List.nil_append, zero_add, List.drop_replicate,
    Nat.sub_self, List.replicate_zero, List.append_nil]

theorem internal_value (hdr : BlankJpeg) :
    _blank_init_internal hdr = some
      { picture :=
          { data := hdr.BLANK_JPEG_DATA
            used := ARRAY_LEN hdr.BLANK_JPEG_DATA
            allocated := ARRAY_LEN hdr.BLANK_JPEG_DATA }
        width := hdr.BLANK_JPEG_WIDTH
        height := hdr.BLANK_JPEG_HEIGHT } := by
  simp only [_blank_init_internal, blank_zero, A_CALLOC, memcpy, ARRAY_LEN, store_zero_all]

theorem geometry_cells (env : Env) (fp : FILE) (h : (geometryStep env fp).1 = 0) :
    env.jpeg fp.readable = some ((geometryStep env fp).2.2.1, (geometryStep env fp).2.2.2) := by
  unfold geometryStep _jpeg_read_geometry at h ⊢
  cases hd : env.jpeg fp.readable with
  | none => rw [hd] at h; simp at h
  | some g => simp

theorem blank_init_ret_none (fuel : Nat) (env : Env) (hdr : BlankJpeg) (p : String)
    (h : (_blank_init_external fuel env p).ret = .returned none) :
    blank_init fuel env hdr (some p) = .returned (_blank_init_internal hdr) := by
  simp only [blank_init, h]

theorem blank_init_ret_some (fuel : Nat) (env : Env) (hdr : BlankJpeg) (p : String)
    (b : blank_t) (h : (_blank_init_external fuel env p).ret = .returned (some b)) :
    blank_init fuel env hdr (some p) = .returned (some b) := by
  simp only [blank_init, h]

/-- The two ways `blank_init` ends, given a budget that covers the file: the
embedded placeholder when some step of the external load fails, the loaded
file when every step succeeds. -/
theorem blank_init_split (fuel : Nat) (env : Env) (hdr : BlankJpeg) (path : Option String)
    (hfuel : ∀ p fp, path = some p → fopen env p = some fp →
      fp.content.length / CHUNK_SIZE < fuel) :
    (blank_init fuel env hdr path = .returned (_blank_init_internal hdr) ∧
        ¬ ∃ p fp, LoadsFrom env path p fp) ∨
      ∃ p fp pic, LoadsFrom env path p fp ∧
        blank_init fuel env hdr path = .returned (some
          { picture := pic
            width := (geometryStep env fp).2.2.1
            height := (geometryStep env fp).2.2.2 }) ∧
        (_blank_init_external fuel env p).ret = .returned (some
          { picture := pic
            width := (geometryStep env fp).2.2.1
            height := (geometryStep env fp).2.2.2 }) ∧
        pic.used = fp.content.length ∧
        pic.allocated = (fp.content.length / CHUNK_SIZE + 2) * CHUNK_SIZE ∧
        pic.data.length = pic.allocated ∧
        pic.data.take fp.content.length = fp.content := by
  cases path with
  | none =>
    left
    refine ⟨rfl, ?_⟩
    rintro ⟨p, fp, h, _⟩
    exact absurd h (by simp)
  | some p =>
    cases hopen : fopen env p with
    | none =>
      left
      refine ⟨blank_init_ret_none fuel env hdr p
        (by rw [external_no_open fuel env p hopen]), ?_⟩
      rintro ⟨q, fp, hq, ho, _⟩
      simp only [Option.some.injEq] at hq
      subst hq
      rw [hopen] at ho
      exact absurd ho (by simp)
    | some fp =>
      have hsame : ∀ q fq, LoadsFrom env (some p) q fq → q = p ∧ fq = fp := by
        rintro q fq ⟨hq, ho, _⟩
        simp only [Option.some.injEq] at hq
        subst hq
        rw [hopen] at ho
        simp only [Option.some.injEq] at ho
        exact ⟨rfl, ho.symm⟩
      by_cases hgeo : (geometryStep env fp).1 = 0
      · by_cases hseek : (seekStep env fp).1 = 0
        · have hlim := fp.limit_le
          have hf : fp.limit / CHUNK_SIZE < fuel :=
            lt_of_le_of_lt (Nat.div_le_div_right hlim) (hfuel p fp rfl hopen)
          obtain ⟨_, r2, r3⟩ := external_run fuel env p fp hopen hgeo hseek hf
          by_cases hbad : fp.limit < fp.content.length
          · left
            refine ⟨blank_init_ret_none fuel env hdr p (r2 hbad), ?_⟩
            rintro ⟨q, fq, hl⟩
            obtain ⟨_, hfq⟩ := hsame q fq hl
            subst hfq
            exact absurd hl.2.2.2.2 (Nat.ne_of_lt hbad)
          · right
            have heq : fp.limit = fp.content.length := by omega
            obtain ⟨pic, h1, h2, h3, h4, h5⟩ := r3 heq
            exact ⟨p, fp, pic, ⟨rfl, hopen, hgeo, hseek, heq⟩,
              blank_init_ret_some fuel env hdr p _ h1, h1, h2, h3, h4, h5⟩
        · left
          refine ⟨blank_init_ret_none fuel env hdr p
            (by rw [external_no_seek fuel env p fp hopen hseek]), ?_⟩
          rintro ⟨q, fq, hl⟩
          obtain ⟨_, hfq⟩ := hsame q fq hl
          subst hfq
          exact hseek hl.2.2.2.1
      · left
        refine ⟨blank_init_ret_none fuel env hdr p
          (by rw [external_no_geometry fuel env p fp hopen hgeo]), ?_⟩
        rintro ⟨q, fq, hl⟩
        obtain ⟨_, hfq⟩ := hsame q fq hl
        subst hfq
        exact hgeo hl.2.2.1

/-! ## The claims about `blank.c` -/

/-- C1: `blank_init` always returns a placeholder and never `NULL`.  With a budget
that covers the file, the result is the externally loaded placeholder (the one
`_blank_init_external` returned, with the geometry libjpeg decoded and the
bytes of the file) when the path is not `NULL` and every step of the external
load succeeds, and in every other case it is exactly the embedded placeholder
of `_blank_init_internal`, which depends on nothing of the failed load. -/
theorem blank_init_selects (fuel : Nat) (env : Env) (hdr : BlankJpeg) (path : Option String)
    (hfuel : ∀ p fp, path = some p → fopen env p = some fp →
      fp.content.length / CHUNK_SIZE < fuel) :
    (∃ b, blank_init fuel env hdr path = .returned (some b)) ∧
      (∀ p fp, LoadsFrom env path p fp →
        ∃ b, blank_init fuel env hdr path = .returned (some b) ∧
          (_blank_init_external fuel env p).ret = .returned (some b) ∧
          env.jpeg fp.readable = some (b.width, b.height) ∧
          b.picture.used = fp.content.length ∧
          b.picture.data.take fp.content.length = fp.content) ∧
      ((¬ ∃ p fp, LoadsFrom env path p fp) →
        blank_init fuel env hdr path = .returned (_blank_init_internal hdr)) := by
  rcases blank_init_split fuel env hdr path hfuel with ⟨h1, h2⟩ | ⟨p, fp, pic, hl, h1, h2, h3, _, _, h6⟩
  · refine ⟨?_, ?_, fun _ => h1⟩
    · rw [h1, internal_value]
      exact ⟨_, rfl⟩
    · intro p fp hl
      exact absurd ⟨p, fp, hl⟩ h2
  · refine ⟨⟨_, h1⟩, ?_, ?_⟩
    · intro q fq hq
      have hp : q = p := by
        have := hq.1.symm.trans hl.1
        simpa using this
      subst hp
      have hf : fq = fp := by
        have := hq.2.1.symm.trans hl.2.1
        simpa using this
      subst hf
      exact ⟨_, h1, h2, geometry_cells env fq hl.2.2.1, h3, h6⟩
    · intro hno
      exact absurd ⟨p, fp, hl⟩ hno

/-- C1, on the three byte file of `demoEnv`. -/
theorem blank_init_selects_witness :
    (∃ b, blank_init 1 demoEnv demoHdr (some "blank.jpg") = .returned (some b)) ∧
      (∀ p fp, LoadsFrom demoEnv (some "blank.jpg") p fp →
        ∃ b, blank_init 1 demoEnv demoHdr (some "blank.jpg") = .returned (some b) ∧
          (_blank_init_external 1 demoEnv p).ret = .returned (some b) ∧
          demoEnv.jpeg fp.readable = some (b.width, b.height) ∧
          b.picture.used = fp.content.length ∧
          b.picture.data.take fp.content.length = fp.content) ∧
      ((¬ ∃ p fp, LoadsFrom demoEnv (some "blank.jpg") p fp) →
        blank_init 1 demoEnv demoHdr (some "blank.jpg") =
          .returned (_blank_init_internal demoHdr)) :=
  blank_init_selects 1 demoEnv demoHdr (some "blank.jpg") (by
    intro p fp hp ho
    simp only [Option.some.injEq] at hp
    subst hp
    have hd : fopen demoEnv "blank.jpg" = some demoFile := by decide
    rw [hd] at ho
    simp only [Option.some.injEq] at ho
    subst ho
    decide)

/-- C2: the file load is exact.  When the file opens, decodes and rewinds, and
every `fread` returns `min(CHUNK_SIZE, bytes remaining)`, a budget of more than
`n / CHUNK_SIZE` iterations makes `_blank_init_external` return a placeholder
whose `picture.used` is the file length `n` and whose first `n` bytes are the
bytes of the file, in order, for every `n` (multiples of `CHUNK_SIZE` too). -/
theorem external_load_exact (fuel : Nat) (env : Env) (p : String) (fp : FILE)
    (hopen : fopen env p = some fp) (hgeo : (geometryStep env fp).1 = 0)
    (hseek : (seekStep env fp).1 = 0) (hread : fp.badFrom = none)
    (hfuel : fp.content.length / CHUNK_SIZE < fuel) :
    ∃ b, (_blank_init_external fuel env p).ret = .returned (some b) ∧
      b.picture.used = fp.content.length ∧
      b.picture.data.take b.picture.used = fp.content ∧
      (∀ i, i < fp.content.length → b.picture.data[i]? = fp.content[i]?) ∧
      (∀ c ∈ (_blank_init_external fuel env p).calls,
        c.readed = min CHUNK_SIZE (fp.content.length - c.used)) := by
  have hlim : fp.limit = fp.content.length := by
    unfold FILE.limit; rw [hread]
  obtain ⟨r1, _, r3⟩ := external_run fuel env p fp hopen hgeo hseek (by rw [hlim]; exact hfuel)
  obtain ⟨pic, h1, h2, _, _, h5⟩ := r3 hlim
  refine ⟨_, h1, h2, ?_, ?_, ?_⟩
  · simp only [h2]; exact h5
  · intro i hi
    have ht := List.getElem?_take_of_lt (l := pic.data) hi
    rw [h5] at ht
    exact ht.symm
  · intro c hc
    rw [r1, List.mem_map] at hc
    obtain ⟨i, _, hi⟩ := hc
    rw [← hi, hlim]
    simp only [expectedCall, zero_add]

/-- C2, on the three byte file of `demoEnv`. -/
theorem external_load_exact_witness :
    ∃ b, (_blank_init_external 1 demoEnv "blank.jpg").ret = .returned (some b) ∧
      b.picture.used = demoFile.content.length ∧
      b.picture.data.take b.picture.used = demoFile.content ∧
      (∀ i, i < demoFile.content.length → b.picture.data[i]? = demoFile.content[i]?) ∧
      (∀ c ∈ (_blank_init_external 1 demoEnv "blank.jpg").calls,
        c.readed = min CHUNK_SIZE (demoFile.content.length - c.used)) :=
  external_load_exact 1 demoEnv "blank.jpg" demoFile (by decide) (by decide) (by decide)
    (by decide) (by decide)

/-- C3: the embedded placeholder of `_blank_init_internal` has
`picture.used = picture.allocated = ARRAY_LEN(BLANK_JPEG_DATA)`, its data is
`BLANK_JPEG_DATA` byte for byte, and its geometry is `BLANK_JPEG_WIDTH` by
`BLANK_JPEG_HEIGHT`. -/
theorem blank_init_internal_fields (hdr : BlankJpeg) :
    ∃ b, _blank_init_internal hdr = some b ∧
      b.picture.used = ARRAY_LEN hdr.BLANK_JPEG_DATA ∧
      b.picture.allocated = ARRAY_LEN hdr.BLANK_JPEG_DATA ∧
      b.picture.data = hdr.BLANK_JPEG_DATA ∧
      b.width = hdr.BLANK_JPEG_WIDTH ∧
      b.height = hdr.BLANK_JPEG_HEIGHT :=
  ⟨_, internal_value hdr, rfl, rfl, rfl, rfl, rfl⟩

/-- C5: capacity grows monotonically in the external load loop.  In every
iteration `picture.allocated` after the iteration is at least what it was
before; when it is reassigned the new value is `used + 2 * CHUNK_SIZE` and is
strictly larger than the old one, otherwise it is unchanged; each iteration
starts from the capacity the previous one left, so the capacity never shrinks
over the whole load.  This holds for every file and every budget. -/
theorem capacity_monotone (fuel : Nat) (env : Env) (p : String) :
    (∀ c ∈ (_blank_init_external fuel env p).calls,
        c.allocBefore ≤ c.allocated ∧
        (c.grown = true → c.allocated = c.used + CHUNK_SIZE * 2 ∧ c.allocBefore < c.allocated) ∧
        (c.grown = false → c.allocated = c.allocBefore)) ∧
      (∀ c ∈ (_blank_init_external fuel env p).calls.head?, c.allocBefore = 0) ∧
      List.Chain' (fun a b : ReadCall => b.allocBefore = a.allocated ∧ a.allocated ≤ b.allocated)
        (_blank_init_external fuel env p).calls := by
  rcases external_calls fuel env p with h | ⟨fp, h⟩
  · rw [h]
    simp only [List.not_mem_nil, false_implies, implies_true, List.head?_nil, Option.mem_def,
      reduceCtorEq, List.chain'_nil, and_self]
  · rw [h]
    obtain ⟨c1, c2, _⟩ := readLoop_calls_chain fuel fp blank_zero.picture rfl
    refine ⟨?_, c1, c2⟩
    intro c hc
    obtain ⟨s1, s2, s3, _⟩ := readLoop_calls_sound fuel fp blank_zero.picture rfl c hc
    exact ⟨s1, s2, s3⟩

/-- C5, on the three byte file of `demoEnv`. -/
theorem capacity_monotone_witness :
    (∀ c ∈ (_blank_init_external 1 demoEnv "blank.jpg").calls,
        c.allocBefore ≤ c.allocated ∧
        (c.grown = true → c.allocated = c.used + CHUNK_SIZE * 2 ∧ c.allocBefore < c.allocated) ∧
        (c.grown = false → c.allocated = c.allocBefore)) ∧
      (∀ c ∈ (_blank_init_external 1 demoEnv "blank.jpg").calls.head?, c.allocBefore = 0) ∧
      List.Chain' (fun a b : ReadCall => b.allocBefore = a.allocated ∧ a.allocated ≤ b.allocated)
        (_blank_init_external 1 demoEnv "blank.jpg").calls :=
  capacity_monotone 1 demoEnv "blank.jpg"

/-- C8: no read in the external load loop can write past the buffer.  At every
`fread` call `picture.used + CHUNK_SIZE < picture.allocated`, the heap block
really has `picture.allocated` bytes, at most `CHUNK_SIZE` bytes are read, so
the bytes stored at offset `picture.used` lie inside the block, and after the
read `picture.used < picture.allocated` still holds. -/
theorem fread_in_bounds (fuel : Nat) (env : Env) (p : String) :
    ∀ c ∈ (_blank_init_external fuel env p).calls,
      c.used + CHUNK_SIZE < c.allocated ∧
      c.bufLen = c.allocated ∧
      c.readed ≤ CHUNK_SIZE ∧
      c.used + c.readed ≤ c.bufLen ∧
      c.used + c.readed < c.allocated := by
  intro c hc
  rcases external_calls fuel env p with h | ⟨fp, h⟩
  · rw [h] at hc
    exact absurd hc (List.not_mem_nil c)
  · rw [h] at hc
    obtain ⟨_, _, _, s4, s5, s6⟩ := readLoop_calls_sound fuel fp blank_zero.picture rfl c hc
    exact ⟨s4, s5, s6, by omega, by omega⟩

/-- C8, on the one `fread` call of the load of the three byte file of `demoEnv`. -/
theorem fread_in_bounds_witness :
    demoCall ∈ (_blank_init_external 1 demoEnv "blank.jpg").calls ∧
      demoCall.used + CHUNK_SIZE < demoCall.allocated ∧
      demoCall.bufLen = demoCall.allocated ∧
      demoCall.readed ≤ CHUNK_SIZE ∧
      demoCall.used + demoCall.readed ≤ demoCall.bufLen ∧
      demoCall.used + demoCall.readed < demoCall.allocated :=
  have hm : demoCall ∈ (_blank_init_external 1 demoEnv "blank.jpg").calls := by
    rw [(external_run 1 demoEnv "blank.jpg" demoFile (by decide) (by decide) (by decide)
      (by decide)).1]
    decide
  ⟨hm, fread_in_bounds 1 demoEnv "blank.jpg" demoCall hm⟩

/-- C9: the external load loop terminates for every finite file.  With a budget
of more than `n / CHUNK_SIZE` iterations, a file of `n` bytes that reads to its
end leaves the loop through `ok` after exactly `n / CHUNK_SIZE + 1` calls of
`fread`; a file whose medium fails at an earlier offset leaves it through
`error`; and in any state, an iteration whose `fread` is short leaves the loop
at once, through `error` when the end-of-file indicator is not set. -/
theorem load_terminates (fuel : Nat) (env : Env) (p : String) (fp : FILE)
    (hopen : fopen env p = some fp) (hgeo : (geometryStep env fp).1 = 0)
    (hseek : (seekStep env fp).1 = 0) (hfuel : fp.limit / CHUNK_SIZE < fuel) :
    (fp.limit = fp.content.length →
        (∃ b, (_blank_init_external fuel env p).ret = .returned (some b)) ∧
        (readLoop fuel (seekStep env fp).2 blank_zero.picture).exit = .ok ∧
        (_blank_init_external fuel env p).calls.length = fp.content.length / CHUNK_SIZE + 1) ∧
      (fp.limit < fp.content.length →
        (_blank_init_external fuel env p).ret = .returned none ∧
        (readLoop fuel (seekStep env fp).2 blank_zero.picture).exit = .error ∧
        (_blank_init_external fuel env p).calls.length = fp.limit / CHUNK_SIZE + 1) ∧
      (∀ (k : Nat) (fq : FILE) (pic : picture_t),
        (fread (headPicture pic).data (headPicture pic).used 1 CHUNK_SIZE fq).1 < CHUNK_SIZE →
        (readLoop (k + 1) fq pic).calls.length = 1 ∧
        (readLoop (k + 1) fq pic).exit =
          (if feof (bodyFile fq pic) then Exit.ok else Exit.error)) := by
  obtain ⟨r1, r2, r3⟩ := external_run fuel env p fp hopen hgeo hseek hfuel
  obtain ⟨s1, s2, s3, s4, _⟩ := seekStep_stream env fp hseek
  obtain ⟨e1, _⟩ := readLoop_run fuel (seekStep env fp).2 blank_zero.picture s2
    (by rw [s3, s1]; exact hfuel) (Nat.zero_le _) rfl (Nat.le_refl _)
  rw [s3, s4] at e1
  refine ⟨fun h => ?_, fun h => ?_, ?_⟩
  · obtain ⟨pic, h1, _⟩ := r3 h
    refine ⟨⟨_, h1⟩, ?_, ?_⟩
    · rw [e1, if_neg (by omega)]
    · rw [r1, List.length_map, List.length_range, h]
  · refine ⟨r2 h, ?_, ?_⟩
    · rw [e1, if_pos h]
    · rw [r1, List.length_map, List.length_range]
  · intro k fq pic hshort
    rw [readLoop_succ, if_pos hshort]
    split
    · exact ⟨rfl, rfl⟩
    · exact ⟨rfl, rfl⟩

/-- C9, on the three byte file of `demoEnv`. -/
theorem load_terminates_witness :
    (∃ b, (_blank_init_external 1 demoEnv "blank.jpg").ret = .returned (some b)) ∧
      (_blank_init_external 1 demoEnv "blank.jpg").calls.length =
        demoFile.content.length / CHUNK_SIZE + 1 :=
  ⟨((load_terminates 1 demoEnv "blank.jpg" demoFile (by decide) (by decide) (by decide)
      (by decide)).1 (by decide)).1,
    ((load_terminates 1 demoEnv "blank.jpg" demoFile (by decide) (by decide) (by decide)
      (by decide)).1 (by decide)).2.2⟩

/-- C10: the exact final capacity of an externally loaded placeholder.  For a
file of `n` bytes loaded successfully the block is reallocated in every
iteration, to `2 * CHUNK_SIZE` in the first and by exactly `CHUNK_SIZE` in each
later one; the final `picture.allocated` is `(n / CHUNK_SIZE + 2) * CHUNK_SIZE`,
and the slack `allocated - used` is more than `CHUNK_SIZE` and at most
`2 * CHUNK_SIZE`. -/
theorem final_capacity (fuel : Nat) (env : Env) (p : String) (fp : FILE)
    (hopen : fopen env p = some fp) (hgeo : (geometryStep env fp).1 = 0)
    (hseek : (seekStep env fp).1 = 0) (hread : fp.limit = fp.content.length)
    (hfuel : fp.content.length / CHUNK_SIZE < fuel) :
    CHUNK_SIZE = 102400 ∧
    ∃ b, (_blank_init_external fuel env p).ret = .returned (some b) ∧
      b.picture.used = fp.content.length ∧
      b.picture.allocated = (fp.content.length / CHUNK_SIZE + 2) * CHUNK_SIZE ∧
      CHUNK_SIZE < b.picture.allocated - b.picture.used ∧
      b.picture.allocated - b.picture.used ≤ 2 * CHUNK_SIZE ∧
      (∀ i c, (_blank_init_external fuel env p).calls[i]? = some c →
        c.grown = true ∧ c.allocated = (i + 2) * CHUNK_SIZE ∧
        (i = 0 → c.allocBefore = 0) ∧ (0 < i → c.allocated = c.allocBefore + CHUNK_SIZE)) := by
  obtain ⟨r1, _, r3⟩ := external_run fuel env p fp hopen hgeo hseek (by rw [hread]; exact hfuel)
  obtain ⟨pic, h1, h2, h3, _, _⟩ := r3 hread
  have hC := CHUNK_SIZE_val
  refine ⟨hC, _, h1, h2, h3, ?_, ?_, ?_⟩
  · simp only
    rw [h2, h3, hC]
    omega
  · simp only
    rw [h2, h3, hC]
    omega
  · intro i c hc
    rw [r1, List.getElem?_map, Option.map_eq_some'] at hc
    obtain ⟨j, hj, hc⟩ := hc
    have hji : j = i := by
      rw [List.getElem?_eq_some] at hj
      obtain ⟨hlt, hj⟩ := hj
      rw [List.getElem_range] at hj
      exact hj.symm
    subst hji
    rw [← hc]
    simp only [expectedCall, zero_add, true_and]
    refine ⟨fun h => by rw [if_pos h], fun h => ?_⟩
    rw [if_neg (by omega), hC]
    omega

/-- C10, on the three byte file of `demoEnv`. -/
theorem final_capacity_witness :
    CHUNK_SIZE = 102400 ∧
    ∃ b, (_blank_init_external 1 demoEnv "blank.jpg").ret = .returned (some b) ∧
      b.picture.used = demoFile.content.length ∧
      b.picture.allocated = (demoFile.content.length / CHUNK_SIZE + 2) * CHUNK_SIZE ∧
      CHUNK_SIZE < b.picture.allocated - b.picture.used ∧
      b.picture.allocated - b.picture.used ≤ 2 * CHUNK_SIZE ∧
      (∀ i c, (_blank_init_external 1 demoEnv "blank.jpg").calls[i]? = some c →
        c.grown = true ∧ c.allocated = (i + 2) * CHUNK_SIZE ∧
        (i = 0 → c.allocBefore = 0) ∧ (0 < i → c.allocated = c.allocBefore + CHUNK_SIZE)) :=
  final_capacity 1 demoEnv "blank.jpg" demoFile (by decide) (by decide) (by decide)
    (by decide) (by decide)

/-! ## The claims about the OMX encoder -/

/-- C6: the timeout property of `compress`.  On a `Ready` session, when the
hardware never signals within the deadline of a wait (no flag is set, the
semaphore is not posted), the call returns `Timeout` after exactly the
deadline, the session ends with `failed = true` in the state `Failed`, not
`Ready`, neither flag is set, and no compressed bytes are returned. -/
theorem compress_times_out (deadline : Nat) (hw : List (Nat × Notice)) (omx : omx_encoder_t)
    (hready : omx.state = .Ready) (hquiet : ∀ e ∈ hw.head?, deadline < e.1) :
    (omx_encoder_compress_buffer deadline hw omx).1 = .Timeout ∧
      (omx_encoder_compress_buffer deadline hw omx).2.1.failed = true ∧
      (omx_encoder_compress_buffer deadline hw omx).2.1.state = .Failed ∧
      (omx_encoder_compress_buffer deadline hw omx).2.1.state ≠ .Ready ∧
      (omx_encoder_compress_buffer deadline hw omx).2.1.input_required = false ∧
      (omx_encoder_compress_buffer deadline hw omx).2.1.output_available = false ∧
      (omx_encoder_compress_buffer deadline hw omx).2.1.handler_sem = omx.handler_sem ∧
      (omx_encoder_compress_buffer deadline hw omx).2.2 ≤ deadline := by
  unfold omx_encoder_compress_buffer
  rw [if_neg (by rw [hready]; exact fun h => h rfl)]
  cases hw with
  | nil =>
    simp only [omx_wait_loop, omx_timed_out, zero_add, le_refl, ne_eq, reduceCtorEq,
      not_false_eq_true, and_self]
  | cons e rest =>
    have hd : deadline < e.1 := hquiet e rfl
    simp only [omx_wait_loop, if_pos hd, omx_timed_out, zero_add, le_refl, ne_eq, reduceCtorEq,
      not_false_eq_true, and_self]

/-- C6, on a hardware that answers only after the deadline. -/
theorem compress_times_out_witness :
    (omx_encoder_compress_buffer 5 [(9, Notice.outputFilled [1])] demoSession).1 = .Timeout ∧
      (omx_encoder_compress_buffer 5 [(9, Notice.outputFilled [1])] demoSession).2.1.failed
        = true ∧
      (omx_encoder_compress_buffer 5 [(9, Notice.outputFilled [1])] demoSession).2.2 ≤ 5 :=
  have h := compress_times_out 5 [(9, Notice.outputFilled [1])] demoSession (by decide)
    (by decide)
  ⟨h.1, h.2.1, h.2.2.2.2.2.2.2⟩

/-! ## The encoder pool -/

theorem firstFree_spec (tags : List SlotTag) :
    ∀ i, firstFree tags = some i ↔
      (tags[i]? = some .free ∧ ∀ j, j < i → tags[j]? ≠ some .free) := by
  induction tags with
  | nil => intro i; simp [firstFree]
  | cons t rest ih =>
    intro i
    cases t with
    | free =>
      simp only [firstFree, Option.some.injEq]
      constructor
      · intro h; subst h; simp
      · rintro ⟨_, h2⟩
        cases i with
        | zero => rfl
        | succ k => exact absurd (by simp) (h2 0 (Nat.succ_pos k))
    | busy =>
      simp only [firstFree, Option.map_eq_some']
      constructor
      · rintro ⟨k, hk, rfl⟩
        obtain ⟨h1, h2⟩ := (ih k).mp hk
        refine ⟨by simpa using h1, ?_⟩
        intro j hj
        cases j with
        | zero => simp
        | succ m => simpa using h2 m (by omega)
      · rintro ⟨h1, h2⟩
        cases i with
        | zero => simp at h1
        | succ k =>
          refine ⟨k, (ih k).mpr ⟨by simpa using h1, ?_⟩, rfl⟩
          intro j hj
          simpa using h2 (j + 1) (by omega)
    | failed =>
      simp only [firstFree, Option.map_eq_some']
      constructor
      · rintro ⟨k, hk, rfl⟩
        obtain ⟨h1, h2⟩ := (ih k).mp hk
        refine ⟨by simpa using h1, ?_⟩
        intro j hj
        cases j with
        | zero => simp
        | succ m => simpa using h2 m (by omega)
      · rintro ⟨h1, h2⟩
        cases i with
        | zero => simp at h1
        | succ k =>
          refine ⟨k, (ih k).mpr ⟨by simpa using h1, ?_⟩, rfl⟩
          intro j hj
          simpa using h2 (j + 1) (by omega)

theorem firstFree_none (tags : List SlotTag) :
    firstFree tags = none ↔ ∀ i : Nat, tags[i]? ≠ some SlotTag.free := by
  induction tags with
  | nil => simp [firstFree]
  | cons t rest ih =>
    cases t with
    | free =>
      simp only [firstFree, reduceCtorEq, false_iff, not_forall, not_not]
      exact ⟨0, by simp⟩
    | busy =>
      simp only [firstFree, Option.map_eq_none', ih]
      constructor
      · intro h i
        cases i with
        | zero => simp
        | succ k => simpa using h k
      · intro h i
        simpa using h (i + 1)
    | failed =>
      simp only [firstFree, Option.map_eq_none', ih]
      constructor
      · intro h i
        cases i with
        | zero => simp
        | succ k => simpa using h k
      · intro h i
        simpa using h (i + 1)

theorem getElem?_set_tag (tags : List SlotTag) (i j : Nat) (t : SlotTag) :
    (tags.set i t)[j]? = if i = j then (if i < tags.length then some t else none)
      else tags[j]? := by
  by_cases h : i = j
  · subst h
    rw [if_pos rfl]
    by_cases hl : i < tags.length
    · rw [if_pos hl, List.getElem?_eq_getElem (by rw [List.length_set]; exact hl),
        List.getElem_set_self]
    · rw [if_neg hl, List.getElem?_eq_none (by rw [List.length_set]; omega)]
  · rw [if_neg h, List.getElem?_set_ne h]

theorem create_consistent (ceiling desired : Nat) :
    (EncoderPool.create ceiling desired).Consistent := by
  refine ⟨List.nodup_nil, ?_⟩
  intro i
  simp only [EncoderPool.create, EncoderPool.slots, List.map_nil, List.not_mem_nil, false_iff]
  intro h
  rw [List.getElem?_replicate] at h
  split at h <;> simp at h

theorem submit_consistent (pool : EncoderPool) (frame : Nat) (blocking : Bool)
    (h : pool.Consistent) : (pool.submit frame blocking).1.Consistent := by
  unfold EncoderPool.submit
  cases hf : firstFree pool.tags with
  | none => exact h
  | some i =>
    obtain ⟨hfree, _⟩ := (firstFree_spec pool.tags i).mp hf
    have hlt : i < pool.tags.length := by
      by_contra hge
      rw [List.getElem?_eq_none (by omega)] at hfree
      simp at hfree
    have hnot : i ∉ pool.slots := by
      intro hin
      have := (h.2 i).mp hin
      rw [hfree] at this
      simp at this
    refine ⟨?_, ?_⟩
    · simp only [EncoderPool.slots, List.map_cons]
      exact List.nodup_cons.mpr ⟨hnot, h.1⟩
    · intro j
      simp only [EncoderPool.slots, List.map_cons, List.mem_cons, getElem?_set_tag]
      by_cases hij : i = j
      · subst hij
        simp [hlt]
      · rw [if_neg hij]
        have := h.2 j
        simp only [EncoderPool.slots] at this
        rw [← this]
        constructor
        · rintro (h1 | h1)
          · exact absurd h1.symm hij
          · exact h1
        · exact fun h1 => Or.inr h1

theorem complete_consistent (pool : EncoderPool) (slot : Nat) (ok : Bool)
    (h : pool.Consistent) : (pool.complete slot ok).Consistent := by
  unfold EncoderPool.complete
  split
  · rename_i hbusy
    have hmem : ∀ j, j ∈ (pool.inflight.filter (fun e => decide (e.1 ≠ slot))).map Prod.fst ↔
        j ∈ pool.slots ∧ j ≠ slot := by
      intro j
      simp only [EncoderPool.slots, List.mem_map, List.mem_filter, decide_eq_true_eq]
      constructor
      · rintro ⟨e, ⟨he, hne⟩, rfl⟩
        exact ⟨⟨e, he, rfl⟩, hne⟩
      · rintro ⟨⟨e, he, rfl⟩, hne⟩
        exact ⟨e, ⟨he, hne⟩, rfl⟩
    refine ⟨?_, ?_⟩
    · exact h.1.sublist ((List.filter_sublist _).map Prod.fst)
    · intro j
      simp only [EncoderPool.slots] at hmem ⊢
      rw [hmem j, getElem?_set_tag]
      have hj := h.2 j
      simp only [EncoderPool.slots] at hj
      by_cases hsj : slot = j
      · subst hsj
        rw [if_pos rfl]
        constructor
        · rintro ⟨_, hne⟩; exact absurd rfl hne
        · intro h1
          split at h1
          · cases ok <;> simp at h1
          · simp at h1
      · rw [if_neg hsj, hj]
        exact ⟨fun h1 => h1.1, fun h1 => ⟨h1, fun h2 => hsj h2.symm⟩⟩
  · exact h

theorem run_consistent (events : List PoolEvent) :
    ∀ pool : EncoderPool, pool.Consistent → (pool.run events).Consistent := by
  induction events with
  | nil => intro pool h; exact h
  | cons e rest ih =>
    intro pool h
    simp only [EncoderPool.run, List.foldl_cons]
    apply ih
    cases e with
    | submit frame blocking => exact submit_consistent pool frame blocking h
    | complete slot ok => exact complete_consistent pool slot ok h

theorem submit_tags_length (pool : EncoderPool) (frame : Nat) (blocking : Bool) :
    (pool.submit frame blocking).1.tags.length = pool.tags.length := by
  unfold EncoderPool.submit
  cases firstFree pool.tags with
  | none => rfl
  | some i => simp only [List.length_set]

theorem complete_tags_length (pool : EncoderPool) (slot : Nat) (ok : Bool) :
    (pool.complete slot ok).tags.length = pool.tags.length := by
  unfold EncoderPool.complete
  split
  · simp only [List.length_set]
  · rfl

theorem run_tags_length (events : List PoolEvent) :
    ∀ pool : EncoderPool, (pool.run events).tags.length = pool.tags.length := by
  induction events with
  | nil => intro pool; rfl
  | cons e rest ih =>
    intro pool
    simp only [EncoderPool.run, List.foldl_cons]
    have h := ih (pool.step e)
    simp only [EncoderPool.run] at h
    rw [h]
    cases e with
    | submit frame blocking => exact submit_tags_length pool frame blocking
    | complete slot ok => exact complete_tags_length pool slot ok

theorem consistent_slots_subset (pool : EncoderPool) (h : pool.Consistent) :
    pool.slots ⊆ List.range pool.tags.length := by
  intro i hi
  have hb := (h.2 i).mp hi
  rw [List.mem_range]
  by_contra hge
  rw [List.getElem?_eq_none (by omega)] at hb
  simp at hb

theorem consistent_inflight_le (pool : EncoderPool) (h : pool.Consistent) :
    pool.inflight.length ≤ pool.tags.length := by
  have hs := (List.Nodup.subperm h.1 (consistent_slots_subset pool h)).length_le
  simpa [EncoderPool.slots] using hs

theorem consistent_full (pool : EncoderPool) (h : pool.Consistent)
    (hfull : pool.inflight.length = pool.tags.length) :
    ∀ i, i < pool.tags.length → pool.tags[i]? = some .busy := by
  intro i hi
  have hsp := List.Nodup.subperm h.1 (consistent_slots_subset pool h)
  have hperm := hsp.perm_of_length_le (by simp [EncoderPool.slots, hfull])
  have hin : i ∈ pool.slots := hperm.mem_iff.mpr (List.mem_range.mpr hi)
  exact (h.2 i).mp hin

theorem submit_full (pool : EncoderPool) (h : pool.Consistent)
    (hfull : pool.inflight.length = pool.tags.length) (frame : Nat) :
    pool.submit frame false = (pool, .PoolExhausted) := by
  have hall := consistent_full pool h hfull
  have hnone : firstFree pool.tags = none := by
    rw [firstFree_none]
    intro i hi
    by_cases hlt : i < pool.tags.length
    · rw [hall i hlt] at hi
      simp at hi
    · rw [List.getElem?_eq_none (by omega)] at hi
      simp at hi
  simp only [EncoderPool.submit, hnone, Bool.false_eq_true, if_false]

theorem submit_after_complete (pool : EncoderPool) (h : pool.Consistent)
    (hfull : pool.inflight.length = pool.tags.length) (slot frame : Nat)
    (hslot : slot < pool.tags.length) :
    ((pool.complete slot true).submit frame false).2 = .accepted slot := by
  have hall := consistent_full pool h hfull
  have hfirst : firstFree (pool.tags.set slot .free) = some slot := by
    rw [firstFree_spec]
    refine ⟨?_, ?_⟩
    · rw [getElem?_set_tag, if_pos rfl, if_pos hslot]
    · intro j hj
      rw [getElem?_set_tag, if_neg (by omega), hall j (by omega)]
      simp
  simp only [EncoderPool.complete, hall slot hslot, if_true, EncoderPool.submit, hfirst]

theorem submit_accepts (pool : EncoderPool) (h : pool.Consistent)
    (hnf : ∀ i : Nat, pool.tags[i]? ≠ some SlotTag.failed)
    (hlt : pool.inflight.length < pool.tags.length) (frame : Nat) (blocking : Bool) :
    ∃ slot, pool.submit frame blocking =
      ({ tags := pool.tags.set slot .busy, inflight := (slot, frame) :: pool.inflight },
        .accepted slot) := by
  cases hf : firstFree pool.tags with
  | some i => exact ⟨i, by simp only [EncoderPool.submit, hf]⟩
  | none =>
    exfalso
    rw [firstFree_none] at hf
    have hall : List.range pool.tags.length ⊆ pool.slots := by
      intro i hi
      rw [List.mem_range] at hi
      apply (h.2 i).mpr
      have hget := List.getElem?_eq_getElem hi
      have h1 := hf i
      have h2 := hnf i
      rw [hget] at h1 h2 ⊢
      cases ht : pool.tags[i] with
      | free => rw [ht] at h1; exact absurd rfl h1
      | busy => rfl
      | failed => rw [ht] at h2; exact absurd rfl h2
    have hle := (List.Nodup.subperm (List.nodup_range _) hall).length_le
    simp only [List.length_range, EncoderPool.slots, List.length_map] at hle
    omega

theorem submits_fill (frames : List Nat) :
    ∀ pool : EncoderPool, pool.Consistent →
      (∀ i : Nat, pool.tags[i]? ≠ some SlotTag.failed) →
      pool.inflight.length + frames.length ≤ pool.tags.length →
      (pool.run (frames.map (fun f => PoolEvent.submit f false))).inflight.length =
        pool.inflight.length + frames.length := by
  induction frames with
  | nil => intro pool _ _ _; rfl
  | cons f rest ih =>
    intro pool h hnf hle
    simp only [List.length_cons] at hle
    obtain ⟨slot, hs⟩ := submit_accepts pool h hnf (by omega) f false
    have hc := submit_consistent pool f false h
    simp only [List.map_cons, EncoderPool.run, List.foldl_cons, EncoderPool.step]
    rw [hs] at hc ⊢
    have hnf2 : ∀ i : Nat, (pool.tags.set slot SlotTag.busy)[i]? ≠ some SlotTag.failed := by
      intro i
      rw [getElem?_set_tag]
      split
      · split <;> simp
      · exact hnf i
    have := ih _ hc hnf2 (by simp only [List.length_cons, List.length_set]; omega)
    simp only [EncoderPool.run, List.length_cons] at this
    rw [this, List.length_cons]
    omega

theorem create_no_failed (ceiling desired : Nat) :
    ∀ i : Nat, (EncoderPool.create ceiling desired).tags[i]? ≠ some SlotTag.failed := by
  intro i h
  simp only [EncoderPool.create] at h
  rw [List.getElem?_replicate] at h
  split at h <;> simp at h

/-- C7: the pool is bounded by the hardware ceiling `OMX_MAX_ENCODERS`, `3`
unless `CFG_OMX_MAX_ENCODERS` overrides it.  After any sequence of submissions
and completions the pool has at most `OMX_MAX_ENCODERS` sessions, at most that
many frames in flight, and no session holds two frames.  When every session of
the pool has a frame in flight, a submission with blocking disabled is rejected
with `PoolExhausted` and changes nothing, and as soon as one frame completes
the next submission is accepted; in particular the first `N` submissions to a
fresh pool of size `N` are all in flight and the next one is rejected. -/
theorem pool_capacity (cfg : Option Int) (desired : Nat) (events : List PoolEvent)
    (frames : List Nat) (extra : Nat) :
    OMX_MAX_ENCODERS none = 3 ∧
      ((EncoderPool.create (OMX_MAX_ENCODERS cfg) desired).run events).tags.length
        ≤ OMX_MAX_ENCODERS cfg ∧
      ((EncoderPool.create (OMX_MAX_ENCODERS cfg) desired).run events).inflight.length
        ≤ OMX_MAX_ENCODERS cfg ∧
      ((EncoderPool.create (OMX_MAX_ENCODERS cfg) desired).run events).slots.Nodup ∧
      (((EncoderPool.create (OMX_MAX_ENCODERS cfg) desired).run events).inflight.length =
          ((EncoderPool.create (OMX_MAX_ENCODERS cfg) desired).run events).tags.length →
        ((EncoderPool.create (OMX_MAX_ENCODERS cfg) desired).run events).submit extra false =
            ((EncoderPool.create (OMX_MAX_ENCODERS cfg) desired).run events, .PoolExhausted) ∧
          ∀ slot, slot <
              ((EncoderPool.create (OMX_MAX_ENCODERS cfg) desired).run events).tags.length →
            ((((EncoderPool.create (OMX_MAX_ENCODERS cfg) desired).run events).complete
              slot true).submit extra false).2 = .accepted slot) ∧
      (frames.length = OMX_MAX_ENCODERS cfg →
        ((EncoderPool.create (OMX_MAX_ENCODERS cfg) (OMX_MAX_ENCODERS cfg)).run
            (frames.map (fun f => PoolEvent.submit f false))).inflight.length
          = OMX_MAX_ENCODERS cfg ∧
        ((EncoderPool.create (OMX_MAX_ENCODERS cfg) (OMX_MAX_ENCODERS cfg)).run
            (frames.map (fun f => PoolEvent.submit f false))).submit extra false =
          ((EncoderPool.create (OMX_MAX_ENCODERS cfg) (OMX_MAX_ENCODERS cfg)).run
            (frames.map (fun f => PoolEvent.submit f false)), .PoolExhausted)) := by
  have hc := run_consistent events _ (create_consistent (OMX_MAX_ENCODERS cfg) desired)
  have hl := run_tags_length events (EncoderPool.create (OMX_MAX_ENCODERS cfg) desired)
  have hsize : (EncoderPool.create (OMX_MAX_ENCODERS cfg) desired).tags.length
      ≤ OMX_MAX_ENCODERS cfg := by
    simp only [EncoderPool.create, List.length_replicate]
    exact min_le_right _ _
  have hin := consistent_inflight_le _ hc
  refine ⟨by decide, by omega, by omega, hc.1, ?_, ?_⟩
  · intro hfull
    exact ⟨submit_full _ hc hfull extra, fun slot hs => submit_after_complete _ hc hfull slot extra hs⟩
  · intro hlen
    have hsz : (EncoderPool.create (OMX_MAX_ENCODERS cfg) (OMX_MAX_ENCODERS cfg)).tags.length
        = OMX_MAX_ENCODERS cfg := by
      simp only [EncoderPool.create, List.length_replicate, min_self]
    have hfill := submits_fill frames _
      (create_consistent (OMX_MAX_ENCODERS cfg) (OMX_MAX_ENCODERS cfg))
      (create_no_failed _ _) (by rw [hsz, hlen]; simp [EncoderPool.create])
    have hin0 : (EncoderPool.create (OMX_MAX_ENCODERS cfg) (OMX_MAX_ENCODERS cfg)).inflight.length
        = 0 := rfl
    rw [hin0, zero_add, hlen] at hfill
    refine ⟨hfill, ?_⟩
    apply submit_full _ (run_consistent _ _ (create_consistent _ _))
    rw [hfill, run_tags_length, hsz]

/-- C7, on a pool of the default size with three frames submitted. -/
theorem pool_capacity_witness :
    OMX_MAX_ENCODERS none = 3 ∧
      ((EncoderPool.create (OMX_MAX_ENCODERS none) 3).run [.submit 7 false]).inflight.length
        ≤ OMX_MAX_ENCODERS none ∧
      ((EncoderPool.create (OMX_MAX_ENCODERS none) (OMX_MAX_ENCODERS none)).run
          ([0, 1, 2].map (fun f => PoolEvent.submit f false))).submit 3 false =
        ((EncoderPool.create (OMX_MAX_ENCODERS none) (OMX_MAX_ENCODERS none)).run
          ([0, 1, 2].map (fun f => PoolEvent.submit f false)), .PoolExhausted) :=
  have h := pool_capacity none 3 [.submit 7 false] [0, 1, 2] 3
  ⟨h.1, h.2.2.1, (h.2.2.2.2.2 (by decide)).2⟩

end Ustreamer
